import Mathlib

/-!
Shallow embedding of the event-window video extraction engine
(src/soccerProjNewCode-1.py, src/preprocess/extract_clips_frames.py,
src/preprocess/extract_clips_frames_label.py, src/preprocess/newExtractFrames.py).

Seconds, durations and frame rates are modelled as exact rationals; Python's
built-in round (banker's rounding, ties to even) is modelled by pyRound and
Python's int() truncation by pyInt.
-/

namespace SoccerExtract

/-- Python round() on an exact rational: nearest integer, ties to even. -/
def pyRound (x : ℚ) : ℤ :=
  if x - Int.floor x = 1/2 then
    (if Int.floor x % 2 = 0 then Int.floor x else Int.floor x + 1)
  else round x

/-- Python int() on an exact rational: truncation toward zero. -/
def pyInt (x : ℚ) : ℤ :=
  if 0 ≤ x then Int.floor x else -Int.floor (-x)

theorem pyRound_intCast (n : ℤ) : pyRound (n : ℚ) = n := by
  unfold pyRound
  rw [Int.floor_intCast]
  simp only [sub_self]
  rw [if_neg (by norm_num)]
  exact round_intCast n

theorem pyRound_natCast (n : ℕ) : pyRound (n : ℚ) = n := by
  have h := pyRound_intCast (n : ℤ)
  rw [Int.cast_natCast] at h
  exact h

theorem floor_le_pyRound (x : ℚ) : Int.floor x ≤ pyRound x := by
  unfold pyRound
  split
  · split
    · exact le_refl _
    · omega
  · rw [round_eq]
    exact Int.floor_mono (by linarith)

theorem pyRound_le_floor_add_one (x : ℚ) : pyRound x ≤ Int.floor x + 1 := by
  unfold pyRound
  split
  · split
    · omega
    · omega
  · rw [round_eq]
    have h1 : Int.floor (x + 1/2) ≤ Int.floor (x + 1) := Int.floor_mono (by linarith)
    have h2 : Int.floor (x + 1) = Int.floor x + 1 := Int.floor_add_one x
    omega

theorem pyRound_mono {x y : ℚ} (h : x ≤ y) : pyRound x ≤ pyRound y := by
  rcases lt_or_eq_of_le (Int.floor_mono h) with hf | hf
  · calc pyRound x ≤ Int.floor x + 1 := pyRound_le_floor_add_one x
      _ ≤ Int.floor y := by omega
      _ ≤ pyRound y := floor_le_pyRound y
  · unfold pyRound
    rw [hf]
    by_cases hx : x - Int.floor y = 1/2
    · rw [if_pos hx]
      by_cases hy : y - Int.floor y = 1/2
      · rw [if_pos hy]
      · rw [if_neg hy]
        have hxy : x = (Int.floor y : ℚ) + 1/2 := by linarith
        have hlt : x < y := lt_of_le_of_ne h (fun he => hy (he ▸ hx))
        have hylt : (Int.floor y : ℚ) + 1/2 < y := by linarith
        have : Int.floor y + 1 ≤ round y := by
          rw [round_eq]
          apply Int.le_floor.mpr
          push_cast
          linarith
        split <;> omega
    · rw [if_neg hx]
      by_cases hy : y - Int.floor y = 1/2
      · rw [if_pos hy]
        have hyy : y = (Int.floor y : ℚ) + 1/2 := by linarith
        have hxlt : x < (Int.floor y : ℚ) + 1/2 :=
          lt_of_le_of_ne (by linarith) (fun he => hx (by linarith))
        have : round x ≤ Int.floor y := by
          rw [round_eq]
          apply Int.lt_add_one_iff.mp
          apply Int.floor_lt.mpr
          push_cast
          linarith
        split <;> omega
      · rw [if_neg hy]
        rw [round_eq, round_eq]
        exact Int.floor_mono (by linarith)

theorem pyRound_eq_of_ge {s e fps : ℚ} (hse : e ≤ s) (hf : 0 ≤ fps) :
    pyRound (e * fps) ≤ pyRound (s * fps) :=
  pyRound_mono (mul_le_mul_of_nonneg_right hse hf)

/-! ### Decimal digit and string rendering (models Python str formatting) -/

def digitChar : ℕ → Char
  | 0 => '0'
  | 1 => '1'
  | 2 => '2'
  | 3 => '3'
  | 4 => '4'
  | 5 => '5'
  | 6 => '6'
  | 7 => '7'
  | 8 => '8'
  | 9 => '9'
  | _ => '*'

def charDigit (c : Char) : ℕ := c.toNat - 48

def isDigitC (c : Char) : Bool := decide ('0' ≤ c) && decide (c ≤ '9')

/-- Decimal rendering of a natural number, most significant digit first;
structural recursion on a fuel bound so that the kernel can evaluate it. -/
def natNumStrAux : ℕ → ℕ → List Char
  | 0, _ => []
  | Nat.succ fuel, n =>
      if n < 10 then [digitChar n]
      else natNumStrAux fuel (n / 10) ++ [digitChar (n % 10)]

def natNumStr (n : ℕ) : List Char := natNumStrAux (n + 1) n

def natNumStrS (n : ℕ) : String := String.mk (natNumStr n)

/-- Zero padding on the left to a minimal width (Python 0-fill). -/
def zeroPad (w : ℕ) (l : List Char) : List Char :=
  List.replicate (w - l.length) '0' ++ l

def zeroPadS (w : ℕ) (s : String) : String := String.mk (zeroPad w s.data)

/-- Value of a list of decimal digit characters (models int() on a digit group). -/
def decDigits (l : List Char) : ℕ := l.foldl (fun a c => 10 * a + charDigit c) 0

def dec2 (c1 c2 : Char) : ℕ := 10 * charDigit c1 + charDigit c2

/-- Digits of a millisecond count rendered as seconds with 3 decimals. -/
def milliCore (m : ℕ) : List Char :=
  natNumStr (m / 1000) ++ '.' :: zeroPad 3 (natNumStr (m % 1000))

/-- Python fixed-point formatting with 3 decimals and 0-padded minimal width
(models f-string specifiers 06.3f and 08.3f). -/
def fmtFixed3 (width : ℕ) (x : ℚ) : String :=
  let mi := pyRound (x * 1000)
  if mi < 0 then "-" ++ zeroPadS (width - 1) (String.mk (milliCore mi.natAbs))
  else zeroPadS width (String.mk (milliCore mi.toNat))

/-- Python f-string 02d formatting of an integer. -/
def intFixed2 (m : ℤ) : String :=
  if m < 0 then "-" ++ natNumStrS m.natAbs
  else zeroPadS 2 (natNumStrS m.toNat)

/-! ### Timestamp parsing (parse_time_stamp of all four scripts)

The regex fullmatch on the pattern of digits, an optional plus group,
a colon and exactly two digits is realised as a direct scanner; because
the characters after each digit group are never digits, the greedy digit
groups of the regex are forced and the scanner is equivalent. -/

def isSpaceC (c : Char) : Bool :=
  c == ' ' || c == '\t' || c == '\n' || c == '\r' || c == '\x0b' || c == '\x0c'

/-- Python str.strip() for the whitespace characters above. -/
def stripChars (l : List Char) : List Char :=
  ((l.dropWhile isSpaceC).reverse.dropWhile isSpaceC).reverse

/-- The regex groups of the timestamp pattern: minutes, added minutes
(0 when the optional group is absent) and the two-digit seconds. -/
def matchTs (l : List Char) : Option (ℕ × ℕ × ℕ) :=
  if (l.takeWhile isDigitC).isEmpty then none
  else
    match l.dropWhile isDigitC with
    | '+' :: rest2 =>
        if (rest2.takeWhile isDigitC).isEmpty then none
        else
          match rest2.dropWhile isDigitC with
          | ':' :: c1 :: c2 :: [] =>
              if isDigitC c1 && isDigitC c2 then
                some (decDigits (l.takeWhile isDigitC),
                  decDigits (rest2.takeWhile isDigitC), dec2 c1 c2)
              else none
          | _ => none
    | ':' :: c1 :: c2 :: [] =>
        if isDigitC c1 && isDigitC c2 then
          some (decDigits (l.takeWhile isDigitC), 0, dec2 c1 c2)
        else none
    | _ => none

/-- parse_time_stamp: total seconds (mm + added) * 60 + ss, none models the
ValueError raised on an empty or unrecognized timestamp. -/
def parse_time_stamp (s : String) : Option ℚ :=
  if s = "" then none
  else
    match matchTs (stripChars s.data) with
    | some (mm, added, ss) => some (((mm + added) * 60 + ss : ℕ) : ℚ)
    | none => none

/-- The minute-and-seconds tag derived from a parsed timestamp value
(body of norm_ts_for_filename after the parse). -/
def tag_of_sec (sec : ℚ) : String :=
  let m := Int.floor (sec / 60)
  let s := sec - 60 * m
  intFixed2 m ++ "-" ++ fmtFixed3 6 s

/-- norm_ts_for_filename; none models the ValueError propagated from the parse. -/
def norm_ts_for_filename (ts : String) : Option String :=
  (parse_time_stamp ts).map tag_of_sec

/-! ### Category sanitizer (sanitize_event_name of extract_clips_frames_label.py) -/

def toLowerPy (c : Char) : Char :=
  if 'A' ≤ c ∧ c ≤ 'Z' then Char.ofNat (c.toNat + 32) else c

def isAllowedC (c : Char) : Bool :=
  (decide ('a' ≤ c) && decide (c ≤ 'z')) || (decide ('0' ≤ c) && decide (c ≤ '9'))
  || c == '_' || c == '-'

/-- Replacement of each ampersand by the three letters a n d (str.replace). -/
def replaceAmp (l : List Char) : List Char :=
  l.flatMap (fun c => if c = '&' then ['a', 'n', 'd'] else [c])

/-- Each run of whitespace becomes one underscore (re.sub on a whitespace run);
the flag records whether the scanner is inside a whitespace run. -/
def squashAux : Bool → List Char → List Char
  | _, [] => []
  | inRun, c :: cs =>
      if isSpaceC c then
        if inRun then squashAux true cs else '_' :: squashAux true cs
      else c :: squashAux false cs

def squashSpaces (l : List Char) : List Char := squashAux false l

/-- The character pipeline of sanitize_event_name: strip, lowercase, ampersand
replacement, whitespace squashing, and removal of disallowed characters. -/
def sanitize_core (l : List Char) : List Char :=
  (squashSpaces (replaceAmp ((stripChars l).map toLowerPy))).filter isAllowedC

/-- sanitize_event_name; the none input models a missing (None) category. -/
def sanitize_event_name (os : Option String) : String :=
  let s0 := match os with
    | none => "unknown"
    | some t => if t = "" then "unknown" else t
  if (sanitize_core s0.data).isEmpty then "unknown"
  else String.mk (sanitize_core s0.data)

/-! ### Window calculation (write_clip_and_frames, clamping and frame bounds) -/

structure Window where
  start_sec : ℚ
  end_sec : ℚ
  start_f : ℤ
  end_f : ℤ

/-- The clamped window of write_clip_and_frames: start and end in seconds and
the rounded frame bounds. -/
def mkWindow (duration_sec fps center_sec before_sec after_sec : ℚ) : Window :=
  let s := max 0 (center_sec - before_sec)
  let e := min duration_sec (center_sec + after_sec)
  { start_sec := s
    end_sec := e
    start_f := pyRound (s * fps)
    end_f := pyRound (e * fps) }

/-- Window following the spec words of the Window Calculator section, for
comparison with the window computed by the code. -/
def specWindow (event_seconds before_sec after_sec duration_sec fps : ℚ) : Window :=
  { start_sec := max 0 (event_seconds - before_sec)
    end_sec := min duration_sec (event_seconds + after_sec)
    start_f := pyRound (max 0 (event_seconds - before_sec) * fps)
    end_f := pyRound (min duration_sec (event_seconds + after_sec) * fps) }

/-! ### Frame sampling sets -/

/-- save_idxs of extract_clips_frames.py and newExtractFrames.py: one index per
whole second from 0 through int(after_sec + before_sec), cadence 1. -/
def save_idxs_pad (start_sec before_sec after_sec fps : ℚ) : Finset ℤ :=
  (Finset.range (pyInt (after_sec + before_sec) + 1).toNat).image
    (fun i : ℕ => pyRound ((start_sec + (i : ℚ)) * fps))

/-- save_idxs of extract_clips_frames_label.py: one index per whole second from
0 through int(round(end_sec - start_sec)), cadence 1. -/
def save_idxs_len (start_sec end_sec fps : ℚ) : Finset ℤ :=
  (Finset.range (pyRound (end_sec - start_sec) + 1).toNat).image
    (fun t : ℕ => pyRound ((start_sec + (t : ℚ)) * fps))

/-- The SampleSet following the spec words: indices round((start_sec + k) * fps)
for natural k with k * cadence at most end_sec - start_sec, cadence 1. -/
def specSampleSet (start_sec end_sec fps : ℚ) : Finset ℤ :=
  (Finset.range (Int.floor (end_sec - start_sec) + 1).toNat).image
    (fun k : ℕ => pyRound ((start_sec + (k : ℚ)) * fps))

/-! ### The read/write loop of write_clip_and_frames

The external frame source is abstracted by readOk, giving the success of the
k-th sequential read after the seek; the loop walks idx from start_f while
idx < end_f, breaks on a failed read, writes every frame read, and persists
the frames whose index lies in the save set.  The result is the count of
frames written to the clip and the set of indices persisted as images. -/

def extractLoop (readOk : ℕ → Bool) (save : Finset ℤ) : ℤ → ℕ → ℕ → ℕ × Finset ℤ
  | _, _, 0 => (0, ∅)
  | idx, k, Nat.succ n =>
      if readOk k then
        let rest := extractLoop readOk save (idx + 1) (k + 1) n
        (rest.1 + 1, if idx ∈ save then insert idx rest.2 else rest.2)
      else (0, ∅)

def extractRun (readOk : ℕ → Bool) (save : Finset ℤ) (start_f end_f : ℤ) :
    ℕ × Finset ℤ :=
  extractLoop readOk save start_f 0 (end_f - start_f).toNat

/-- Clip file name of extract_clips_frames.py and soccerProjNewCode-1.py. -/
def clip_file_name (tag : String) (start_sec end_sec : ℚ) : String :=
  "clip_" ++ tag ++ "_" ++ fmtFixed3 8 start_sec ++ "s_to_" ++ fmtFixed3 8 end_sec
    ++ "s.mp4"

inductive JobResult where
  | skippedInvalid : JobResult
  | sinkFailed : JobResult
  | done : String → ℕ → Finset ℤ → JobResult
deriving DecidableEq

def JobResult.wroteCount : JobResult → ℕ
  | JobResult.done _ w _ => w
  | _ => 0

def JobResult.persistedIdxs : JobResult → Finset ℤ
  | JobResult.done _ _ p => p
  | _ => ∅

/-- write_clip_and_frames of extract_clips_frames.py (soccerProjNewCode-1.py is
identical up to the cap/fps plumbing): clamp the window, skip when the frame
range is empty, abandon when the clip sink cannot be opened, else run the read
loop over the sampled index set. -/
def write_clip_and_frames (duration_sec fps center_sec before_sec after_sec : ℚ)
    (tag : String) (sinkOk : Bool) (readOk : ℕ → Bool) : JobResult :=
  if (mkWindow duration_sec fps center_sec before_sec after_sec).end_f
      ≤ (mkWindow duration_sec fps center_sec before_sec after_sec).start_f then
    JobResult.skippedInvalid
  else if sinkOk then
    JobResult.done
      (clip_file_name tag
        (mkWindow duration_sec fps center_sec before_sec after_sec).start_sec
        (mkWindow duration_sec fps center_sec before_sec after_sec).end_sec)
      (extractRun readOk
        (save_idxs_pad (mkWindow duration_sec fps center_sec before_sec after_sec).start_sec
          before_sec after_sec fps)
        (mkWindow duration_sec fps center_sec before_sec after_sec).start_f
        (mkWindow duration_sec fps center_sec before_sec after_sec).end_f).1
      (extractRun readOk
        (save_idxs_pad (mkWindow duration_sec fps center_sec before_sec after_sec).start_sec
          before_sec after_sec fps)
        (mkWindow duration_sec fps center_sec before_sec after_sec).start_f
        (mkWindow duration_sec fps center_sec before_sec after_sec).end_f).2
  else JobResult.sinkFailed

/-! ### Event records and deduplication -/

structure RawComment where
  time_stamp : String
  comments_type : String
  half : ℤ
deriving DecidableEq

/-- Dedup loop of extract_clips_frames_label.py: key (half, ts, event), records
appended as (ts, event, half) in first-seen order. -/
def dedup_label_aux (seen : List (ℤ × String × String)) :
    List RawComment → List (String × String × ℤ)
  | [] => []
  | c :: cs =>
      if c.time_stamp = "" then dedup_label_aux seen cs
      else if (c.half, c.time_stamp, c.comments_type) ∈ seen then
        dedup_label_aux seen cs
      else (c.time_stamp, c.comments_type, c.half) ::
        dedup_label_aux ((c.half, c.time_stamp, c.comments_type) :: seen) cs

def dedup_label (comments : List RawComment) : List (String × String × ℤ) :=
  dedup_label_aux [] comments

/-- Dedup loop of newExtractFrames.py: the key is the raw timestamp alone. -/
def dedup_ts_aux (seen : List String) : List RawComment → List (String × String)
  | [] => []
  | c :: cs =>
      if c.time_stamp = "" then dedup_ts_aux seen cs
      else if c.time_stamp ∈ seen then dedup_ts_aux seen cs
      else (c.time_stamp, c.comments_type) :: dedup_ts_aux (c.time_stamp :: seen) cs

def dedup_ts (comments : List RawComment) : List (String × String) :=
  dedup_ts_aux [] comments

/-- Per-half timestamp dedup of soccerProjNewCode-1.py (seen-set, order kept). -/
def dedup_first_seen_aux (seen : List String) : List String → List String
  | [] => []
  | t :: ts =>
      if t ∈ seen then dedup_first_seen_aux seen ts
      else t :: dedup_first_seen_aux (t :: seen) ts

def dedup_first_seen (l : List String) : List String := dedup_first_seen_aux [] l

/-! ### Half and match processing (soccerProjNewCode-1.py) -/

/-- process_half, timestamp pipeline: sorted(timestamps, key=parse_time_stamp)
evaluates the key on every element first, so one malformed timestamp raises
(modelled by Except.error naming the offending string) before the per-event
loop with its try/except skip is ever reached.  On success the returned list
holds the seconds of every event processed, in processing order. -/
def keyedList (l : List String) : Except String (List (String × ℚ)) :=
  match l with
  | [] => Except.ok []
  | ts :: rest =>
      match parse_time_stamp ts with
      | none => Except.error ts
      | some v =>
          match keyedList rest with
          | Except.error e => Except.error e
          | Except.ok ps => Except.ok ((ts, v) :: ps)

def process_half (timestamps : List String) : Except String (List ℚ) :=
  match keyedList timestamps with
  | Except.error e => Except.error e
  | Except.ok pairs =>
      let sortedPairs := List.insertionSort (fun a b => a.2 ≤ b.2) pairs
      Except.ok (sortedPairs.filterMap (fun p => parse_time_stamp p.1))

/-- A match folder as the orchestrator sees it: the glob results for the JSON
and the two half videos, and the parsed JSON comments (none models a raising
json.load). -/
structure MatchFolder where
  name : String
  jsonFiles : List String
  mkv1 : List String
  mkv2 : List String
  jsonData : Option (List RawComment)
deriving DecidableEq

/-- The per-half timestamp lists split by the half field, nonempty stamps only. -/
def split_half (comments : List RawComment) (h : ℤ) : List String :=
  (comments.filter (fun c => decide (c.time_stamp ≠ "") && decide (c.half = h))).map
    (fun c => c.time_stamp)

/-- process_match: missing JSON or either half video prints an error and
returns (no jobs); a raising json.load or a malformed timestamp propagates as
an exception out of the match. -/
def process_match (m : MatchFolder) : Except String (List ℚ × List ℚ) :=
  if m.jsonFiles.isEmpty then Except.ok ([], [])
  else if m.mkv1.isEmpty then Except.ok ([], [])
  else if m.mkv2.isEmpty then Except.ok ([], [])
  else
    match m.jsonData with
    | none => Except.error "json load failed"
    | some comments => do
        let ts1 := dedup_first_seen (split_half comments 1)
        let ts2 := dedup_first_seen (split_half comments 2)
        let r1 ← if ts1.isEmpty then Except.ok [] else process_half ts1
        let r2 ← if ts2.isEmpty then Except.ok [] else process_half ts2
        Except.ok (r1, r2)

/-- The main match loop: folders sorted by name, each match processed under a
try/except that logs and continues, so one failing match never aborts the
batch; each entry pairs the folder name with its own outcome. -/
def run_batch (folders : List MatchFolder) : List (String × Option (List ℚ × List ℚ)) :=
  (List.insertionSort (fun a b => a.name ≤ b.name) folders).map
    (fun m => (m.name, (process_match m).toOption))

/-! ### Evaluation helpers for pyRound and pyInt -/

theorem pyInt_intCast (n : ℤ) : pyInt (n : ℚ) = n := by
  unfold pyInt
  split
  · exact Int.floor_intCast n
  · rw [← Int.cast_neg, Int.floor_intCast]
    omega

theorem pyRound_eq_int {x : ℚ} {n : ℤ} (h : x = (n : ℚ)) : pyRound x = n := by
  rw [h, pyRound_intCast]

theorem pyInt_eq_int {x : ℚ} {n : ℤ} (h : x = (n : ℚ)) : pyInt x = n := by
  rw [h, pyInt_intCast]

/-! ### Digit lemmas -/

theorem charDigit_digitChar : ∀ d : ℕ, d < 10 → charDigit (digitChar d) = d := by decide

theorem isDigitC_digitChar : ∀ d : ℕ, d < 10 → isDigitC (digitChar d) = true := by decide

theorem digitChar_ne_dash : ∀ d : ℕ, d < 10 → digitChar d ≠ '-' := by decide

theorem digitChar_ne_underscore : ∀ d : ℕ, d < 10 → digitChar d ≠ '_' := by decide

theorem natNumStrAux_congr :
    ∀ f1 f2 n : ℕ, n < f1 → n < f2 → natNumStrAux f1 n = natNumStrAux f2 n := by
  intro f1
  induction f1 with
  | zero => intro f2 n h1 _; omega
  | succ f ih =>
      intro f2 n h1 h2
      cases f2 with
      | zero => omega
      | succ f2 =>
          show natNumStrAux (f + 1) n = natNumStrAux (f2 + 1) n
          simp only [natNumStrAux]
          by_cases hn : n < 10
          · simp [hn]
          · simp only [if_neg hn]
            have hd : n / 10 < n := Nat.div_lt_self (by omega) (by omega)
            rw [ih f2 (n / 10) (by omega) (by omega)]

/-- The defining recurrence of natNumStr, with the fuel discharged. -/
theorem natNumStr_eq (n : ℕ) :
    natNumStr n = if n < 10 then [digitChar n]
      else natNumStr (n / 10) ++ [digitChar (n % 10)] := by
  conv_lhs => rw [natNumStr]
  rw [show natNumStrAux (n + 1) n
      = (if n < 10 then [digitChar n] else natNumStrAux n (n / 10) ++ [digitChar (n % 10)])
    from rfl]
  by_cases hn : n < 10
  · rw [if_pos hn, if_pos hn]
  · rw [if_neg hn, if_neg hn]
    have hd : n / 10 < n := Nat.div_lt_self (by omega) (by omega)
    rw [natNumStrAux_congr n (n / 10 + 1) (n / 10) (by omega) (by omega)]
    rfl

theorem natNumStr_ne_nil (n : ℕ) : natNumStr n ≠ [] := by
  rw [natNumStr_eq]
  split
  · simp
  · simp

theorem natNumStr_length_pos (n : ℕ) : 0 < (natNumStr n).length :=
  List.length_pos.mpr (natNumStr_ne_nil n)

theorem natNumStr_all_digits (n : ℕ) : ∀ c ∈ natNumStr n, isDigitC c = true := by
  induction n using Nat.strong_induction_on with
  | _ n ih =>
      rw [natNumStr_eq]
      by_cases hn : n < 10
      · simp only [if_pos hn, List.mem_singleton]
        rintro c rfl
        exact isDigitC_digitChar n hn
      · simp only [if_neg hn, List.mem_append, List.mem_singleton]
        rintro c (hc | rfl)
        · exact ih (n / 10) (Nat.div_lt_self (by omega) (by omega)) c hc
        · exact isDigitC_digitChar (n % 10) (Nat.mod_lt n (by omega))

theorem decDigits_append (l1 l2 : List Char) :
    decDigits (l1 ++ l2) =
      l2.foldl (fun a c => 10 * a + charDigit c) (decDigits l1) := by
  unfold decDigits
  rw [List.foldl_append]

theorem decDigits_natNumStr (n : ℕ) : decDigits (natNumStr n) = n := by
  induction n using Nat.strong_induction_on with
  | _ n ih =>
      rw [natNumStr_eq]
      by_cases hn : n < 10
      · simp only [if_pos hn]
        unfold decDigits
        simp [charDigit_digitChar n hn]
      · simp only [if_neg hn]
        rw [decDigits_append, ih (n / 10) (Nat.div_lt_self (by omega) (by omega))]
        simp only [List.foldl_cons, List.foldl_nil]
        rw [charDigit_digitChar (n % 10) (Nat.mod_lt n (by omega))]
        omega

theorem natNumStr_injective {m n : ℕ} (h : natNumStr m = natNumStr n) : m = n := by
  have := decDigits_natNumStr m
  rw [h, decDigits_natNumStr] at this
  omega

theorem natNumStr_length_lt10 {n : ℕ} (h : n < 10) : (natNumStr n).length = 1 := by
  rw [natNumStr_eq, if_pos h]
  rfl

theorem natNumStr_length_lt100 {n : ℕ} (h : n < 100) : (natNumStr n).length ≤ 2 := by
  rw [natNumStr_eq]
  by_cases hn : n < 10
  · simp [hn]
  · rw [if_neg hn]
    rw [List.length_append]
    have : n / 10 < 10 := by omega
    rw [natNumStr_length_lt10 this]
    rfl

theorem natNumStr_length_ge100 {n : ℕ} (h : 100 ≤ n) : 3 ≤ (natNumStr n).length := by
  rw [natNumStr_eq, if_neg (by omega)]
  rw [List.length_append]
  rw [natNumStr_eq, if_neg (by omega)]
  rw [List.length_append]
  have := natNumStr_length_pos (n / 10 / 10)
  simp only [List.length_singleton]
  omega

/-- Two-digit zero padded rendering of n below 100 in explicit form. -/
theorem zeroPad2_natNumStr {n : ℕ} (h : n < 100) :
    zeroPad 2 (natNumStr n) = [digitChar (n / 10), digitChar (n % 10)] := by
  by_cases hn : n < 10
  · rw [natNumStr_eq, if_pos hn]
    unfold zeroPad
    simp only [List.length_singleton]
    have h10 : n / 10 = 0 := by omega
    have hmod : n % 10 = n := by omega
    rw [h10, hmod]
    rfl
  · rw [natNumStr_eq, if_neg hn]
    have hq : n / 10 < 10 := by omega
    rw [natNumStr_eq, if_pos hq]
    unfold zeroPad
    simp

theorem zeroPad2_inj {m n : ℕ}
    (h : zeroPad 2 (natNumStr m) = zeroPad 2 (natNumStr n)) : m = n := by
  by_cases hm : m < 100
  · by_cases hn : n < 100
    · rw [zeroPad2_natNumStr hm, zeroPad2_natNumStr hn] at h
      simp only [List.cons.injEq, and_true] at h
      obtain ⟨h1, h2⟩ := h
      have e1 : m / 10 = n / 10 := by
        have := charDigit_digitChar (m / 10) (by omega)
        rw [h1, charDigit_digitChar (n / 10) (by omega)] at this
        omega
      have e2 : m % 10 = n % 10 := by
        have := charDigit_digitChar (m % 10) (by omega)
        rw [h2, charDigit_digitChar (n % 10) (by omega)] at this
        omega
      omega
    · exfalso
      have hlen := congrArg List.length h
      unfold zeroPad at hlen
      rw [List.length_append, List.length_append, List.length_replicate,
        List.length_replicate] at hlen
      have l1 : (natNumStr m).length ≤ 2 := natNumStr_length_lt100 hm
      have l2 : 3 ≤ (natNumStr n).length := natNumStr_length_ge100 (by omega)
      omega
  · by_cases hn : n < 100
    · exfalso
      have hlen := congrArg List.length h
      unfold zeroPad at hlen
      rw [List.length_append, List.length_append, List.length_replicate,
        List.length_replicate] at hlen
      have l1 : 3 ≤ (natNumStr m).length := natNumStr_length_ge100 (by omega)
      have l2 : (natNumStr n).length ≤ 2 := natNumStr_length_lt100 hn
      omega
    · have l1 : 3 ≤ (natNumStr m).length := natNumStr_length_ge100 (by omega)
      have l2 : 3 ≤ (natNumStr n).length := natNumStr_length_ge100 (by omega)
      unfold zeroPad at h
      have e1 : 2 - (natNumStr m).length = 0 := by omega
      have e2 : 2 - (natNumStr n).length = 0 := by omega
      rw [e1, e2] at h
      simp only [List.replicate_zero, List.nil_append] at h
      exact natNumStr_injective h

/-- Splitting a list at a separator character that occurs in neither prefix. -/
theorem split_at_sep {sep : Char} :
    ∀ {l1 l2 r1 r2 : List Char}, l1 ++ sep :: r1 = l2 ++ sep :: r2 →
      sep ∉ l1 → sep ∉ l2 → l1 = l2 ∧ r1 = r2 := by
  intro l1
  induction l1 with
  | nil =>
      intro l2 r1 r2 h h1 h2
      cases l2 with
      | nil => simpa using h
      | cons b bs =>
          exfalso
          simp only [List.nil_append, List.cons_append, List.cons.injEq] at h
          exact h2 (h.1 ▸ List.mem_cons_self b bs)
  | cons a as ih =>
      intro l2 r1 r2 h h1 h2
      cases l2 with
      | nil =>
          exfalso
          simp only [List.cons_append, List.nil_append, List.cons.injEq] at h
          exact h1 (h.1 ▸ List.mem_cons_self a as)
      | cons b bs =>
          simp only [List.cons_append, List.cons.injEq] at h
          obtain ⟨rfl, h⟩ := h
          have := ih h (fun hm => h1 (List.mem_cons_of_mem _ hm))
            (fun hm => h2 (List.mem_cons_of_mem _ hm))
          exact ⟨by rw [this.1], this.2⟩

theorem zeroPad2_no_dash (n : ℕ) : '-' ∉ zeroPad 2 (natNumStr n) := by
  unfold zeroPad
  intro hm
  rcases List.mem_append.mp hm with hm | hm
  · have := List.eq_of_mem_replicate hm
    exact absurd this (by decide)
  · have := natNumStr_all_digits n _ hm
    exact absurd this (by decide)

theorem zeroPad2_no_underscore (n : ℕ) : '_' ∉ zeroPad 2 (natNumStr n) := by
  unfold zeroPad
  intro hm
  rcases List.mem_append.mp hm with hm | hm
  · have := List.eq_of_mem_replicate hm
    exact absurd this (by decide)
  · have := natNumStr_all_digits n _ hm
    exact absurd this (by decide)

/-! ### Formatting normal forms on natural second counts -/

theorem fmtFixed3_nat (w n : ℕ) :
    fmtFixed3 w ((n : ℕ) : ℚ) = zeroPadS w (String.mk (milliCore (1000 * n))) := by
  unfold fmtFixed3
  have hx : ((n : ℕ) : ℚ) * 1000 = (((1000 * n : ℕ) : ℤ) : ℚ) := by
    push_cast
    ring
  rw [pyRound_eq_int hx]
  rw [if_neg (by omega)]
  rw [Int.toNat_natCast]

theorem intFixed2_nat (n : ℕ) :
    intFixed2 ((n : ℕ) : ℤ) = zeroPadS 2 (natNumStrS n) := by
  unfold intFixed2
  rw [if_neg (by omega)]
  rw [Int.toNat_natCast]

theorem floor_natCast_div_sixty (n : ℕ) :
    Int.floor ((n : ℚ) / 60) = ((n / 60 : ℕ) : ℤ) := by
  rw [Int.floor_eq_iff]
  constructor
  · rw [le_div_iff₀ (by norm_num)]
    push_cast
    have : (n / 60) * 60 ≤ n := Nat.div_mul_le_self n 60
    exact_mod_cast this
  · rw [div_lt_iff₀ (by norm_num)]
    push_cast
    have : n < (n / 60 + 1) * 60 := by omega
    exact_mod_cast this

theorem sec_mod_sixty (n : ℕ) :
    ((n : ℚ) - 60 * (((n / 60 : ℕ) : ℤ) : ℚ)) = ((n % 60 : ℕ) : ℚ) := by
  have h : 60 * (n / 60) + n % 60 = n := Nat.div_add_mod n 60
  have h2 : (60 : ℚ) * ((n / 60 : ℕ) : ℚ) + ((n % 60 : ℕ) : ℚ) = ((n : ℕ) : ℚ) := by
    exact_mod_cast congrArg (fun k : ℕ => (k : ℚ)) h
  rw [Int.cast_natCast]
  linarith

theorem tag_of_sec_nat (n : ℕ) :
    tag_of_sec ((n : ℕ) : ℚ) =
      zeroPadS 2 (natNumStrS (n / 60)) ++ "-"
        ++ zeroPadS 6 (String.mk (milliCore (1000 * (n % 60)))) := by
  show intFixed2 (Int.floor ((n : ℚ) / 60))
      ++ "-" ++ fmtFixed3 6 ((n : ℚ) - 60 * (Int.floor ((n : ℚ) / 60) : ℚ)) = _
  rw [floor_natCast_div_sixty, sec_mod_sixty, intFixed2_nat, fmtFixed3_nat]

theorem zeroPad_append (w : ℕ) (x y : List Char) :
    zeroPad (w + y.length) (x ++ y) = zeroPad w x ++ y := by
  unfold zeroPad
  rw [List.length_append]
  rw [show w + y.length - (x.length + y.length) = w - x.length from by omega]
  rw [List.append_assoc]

theorem milliCore_sec {s : ℕ} (_h : s < 60) :
    zeroPad 6 (milliCore (1000 * s)) =
      zeroPad 2 (natNumStr s) ++ '.' :: '0' :: '0' :: ['0'] := by
  unfold milliCore
  rw [Nat.mul_div_cancel_left s (by norm_num), Nat.mul_mod_right]
  rw [show natNumStr 0 = ['0'] from rfl]
  rw [show zeroPad 3 ['0'] = '0' :: '0' :: ['0'] from rfl]
  rw [show ('.' :: '0' :: '0' :: ['0'] : List Char)
      = [] ++ '.' :: '0' :: '0' :: ['0'] from rfl]
  rw [← List.append_assoc, List.append_nil]
  have := zeroPad_append 2 (natNumStr s) ['.', '0', '0', '0']
  simpa using this

/-- The character-level normal form of a tag derived from whole seconds. -/
theorem tag_data_nat (n : ℕ) :
    (tag_of_sec ((n : ℕ) : ℚ)).data =
      zeroPad 2 (natNumStr (n / 60)) ++ '-' ::
        (zeroPad 2 (natNumStr (n % 60)) ++ '.' :: '0' :: '0' :: ['0']) := by
  rw [tag_of_sec_nat]
  rw [String.data_append, String.data_append]
  rw [show (zeroPadS 2 (natNumStrS (n / 60))).data = zeroPad 2 (natNumStr (n / 60)) from rfl]
  rw [show ("-" : String).data = ['-'] from rfl]
  rw [show (zeroPadS 6 (String.mk (milliCore (1000 * (n % 60))))).data
      = zeroPad 6 (milliCore (1000 * (n % 60))) from rfl]
  rw [milliCore_sec (show n % 60 < 60 from Nat.mod_lt n (by omega))]
  rw [List.append_assoc]
  rfl

theorem tag_data_no_underscore (n : ℕ) : '_' ∉ (tag_of_sec ((n : ℕ) : ℚ)).data := by
  rw [tag_data_nat]
  intro hm
  rcases List.mem_append.mp hm with hm | hm
  · exact zeroPad2_no_underscore _ hm
  · rcases List.mem_cons.mp hm with hm | hm
    · exact absurd hm (by decide)
    · rcases List.mem_append.mp hm with hm | hm
      · exact zeroPad2_no_underscore _ hm
      · exact absurd hm (by decide)

theorem tag_of_sec_nat_inj {n1 n2 : ℕ}
    (h : (tag_of_sec ((n1 : ℕ) : ℚ)).data = (tag_of_sec ((n2 : ℕ) : ℚ)).data) :
    n1 = n2 := by
  rw [tag_data_nat, tag_data_nat] at h
  obtain ⟨h1, h2⟩ := split_at_sep h (zeroPad2_no_dash _) (zeroPad2_no_dash _)
  have e1 : n1 / 60 = n2 / 60 := zeroPad2_inj h1
  rw [zeroPad2_natNumStr (show n1 % 60 < 100 by omega),
    zeroPad2_natNumStr (show n2 % 60 < 100 by omega)] at h2
  simp only [List.cons_append, List.nil_append, List.cons.injEq] at h2
  obtain ⟨ha, hb, -⟩ := h2
  have e2 : n1 % 60 = n2 % 60 := by
    have d1 := charDigit_digitChar (n1 % 60 / 10) (by omega)
    rw [ha, charDigit_digitChar (n2 % 60 / 10) (by omega)] at d1
    have d2 := charDigit_digitChar (n1 % 60 % 10) (by omega)
    rw [hb, charDigit_digitChar (n2 % 60 % 10) (by omega)] at d2
    omega
  omega

theorem clip_file_name_data (tag : String) (s e : ℚ) :
    (clip_file_name tag s e).data =
      'c' :: 'l' :: 'i' :: 'p' :: '_' :: (tag.data ++ '_' ::
        ((fmtFixed3 8 s).data ++ 's' :: '_' :: 't' :: 'o' :: '_' ::
          ((fmtFixed3 8 e).data ++ 's' :: '.' :: 'm' :: 'p' :: ['4']))) := by
  unfold clip_file_name
  simp only [String.data_append]
  simp [List.append_assoc]

theorem clip_name_of_tag_inj {t1 t2 : String} {s1 e1 s2 e2 : ℚ}
    (h : clip_file_name t1 s1 e1 = clip_file_name t2 s2 e2)
    (h1 : '_' ∉ t1.data) (h2 : '_' ∉ t2.data) : t1.data = t2.data := by
  have hd := congrArg String.data h
  rw [clip_file_name_data, clip_file_name_data] at hd
  simp only [List.cons.injEq, true_and] at hd
  exact (split_at_sep hd h1 h2).1

/-! ### Extraction loop lemmas -/

theorem extractLoop_fst_le (readOk : ℕ → Bool) (save : Finset ℤ) :
    ∀ (n : ℕ) (idx : ℤ) (k : ℕ), (extractLoop readOk save idx k n).1 ≤ n := by
  intro n
  induction n with
  | zero => intro idx k; simp [extractLoop]
  | succ n ih =>
      intro idx k
      simp only [extractLoop]
      by_cases h : readOk k
      · simp only [if_pos h]
        have := ih (idx + 1) (k + 1)
        omega
      · simp only [if_neg h]
        omega

theorem extractLoop_true_snd (save : Finset ℤ) :
    ∀ (n : ℕ) (idx : ℤ) (k : ℕ),
      (extractLoop (fun _ => true) save idx k n).2
        = save ∩ Finset.Ico idx (idx + (n : ℤ)) := by
  intro n
  induction n with
  | zero =>
      intro idx k
      simp [extractLoop]
  | succ n ih =>
      intro idx k
      simp only [extractLoop, if_pos]
      apply Finset.ext
      intro x
      by_cases hidx : idx ∈ save
      · simp only [if_pos hidx, Finset.mem_insert, ih (idx + 1) (k + 1),
          Finset.mem_inter, Finset.mem_Ico]
        constructor
        · rintro (rfl | ⟨hs, h1, h2⟩)
          · exact ⟨hidx, by omega, by omega⟩
          · exact ⟨hs, by omega, by omega⟩
        · rintro ⟨hs, h1, h2⟩
          by_cases hx : x = idx
          · exact Or.inl hx
          · exact Or.inr ⟨hs, by omega, by omega⟩
      · simp only [if_neg hidx, ih (idx + 1) (k + 1), Finset.mem_inter, Finset.mem_Ico]
        constructor
        · rintro ⟨hs, h1, h2⟩
          exact ⟨hs, by omega, by omega⟩
        · rintro ⟨hs, h1, h2⟩
          have hx : x ≠ idx := fun he => hidx (he ▸ hs)
          exact ⟨hs, by omega, by omega⟩

theorem extractLoop_stop (readOk : ℕ → Bool) (save : Finset ℤ) :
    ∀ (n : ℕ) (idx : ℤ) (k j : ℕ), j < n → readOk (k + j) = false →
      (∀ i : ℕ, i < j → readOk (k + i) = true) →
      (extractLoop readOk save idx k n).1 = j := by
  intro n
  induction n with
  | zero => intro idx k j hj _ _; omega
  | succ n ih =>
      intro idx k j hj hf hprev
      cases j with
      | zero =>
          have hk : readOk k = false := by
            have := hf
            rwa [Nat.add_zero] at this
          simp [extractLoop, hk]
      | succ j =>
          have hk : readOk k = true := by
            have := hprev 0 (Nat.succ_pos j)
            rwa [Nat.add_zero] at this
          simp only [extractLoop, if_pos hk]
          have hrec := ih (idx + 1) (k + 1) j (by omega)
            (by rw [show k + 1 + j = k + (j + 1) from by omega]; exact hf)
            (fun i hi => by
              rw [show k + 1 + i = k + (i + 1) from by omega]
              exact hprev (i + 1) (by omega))
          omega

/-! ### Sample set versus persisted set -/

theorem save_inter_eq (s e fps : ℚ) (hf : 0 ≤ fps) (N : ℕ)
    (hN : ∀ k : ℕ, (k : ℚ) ≤ e - s → k < N) :
    ((Finset.range N).image (fun k : ℕ => pyRound ((s + (k : ℚ)) * fps)))
        ∩ Finset.Ico (pyRound (s * fps)) (pyRound (e * fps))
      = specSampleSet s e fps
        ∩ Finset.Ico (pyRound (s * fps)) (pyRound (e * fps)) := by
  apply Finset.ext
  intro x
  simp only [Finset.mem_inter, Finset.mem_image, Finset.mem_range, specSampleSet,
    Finset.mem_Ico]
  constructor
  · rintro ⟨⟨k, _hk, rfl⟩, hlo, hhi⟩
    refine ⟨⟨k, ?_, rfl⟩, hlo, hhi⟩
    by_contra hgt
    push_neg at hgt
    have hk2 : ¬ ((k : ℚ) ≤ e - s) := by
      intro hle
      have : (k : ℤ) ≤ Int.floor (e - s) := Int.le_floor.mpr (by exact_mod_cast hle)
      omega
    push_neg at hk2
    have : pyRound (e * fps) ≤ pyRound ((s + (k : ℚ)) * fps) :=
      pyRound_mono (mul_le_mul_of_nonneg_right (by linarith) hf)
    omega
  · rintro ⟨⟨k, hk, rfl⟩, hlo, hhi⟩
    refine ⟨⟨k, ?_, rfl⟩, hlo, hhi⟩
    apply hN
    have hk2 : (k : ℤ) ≤ Int.floor (e - s) := by omega
    have := Int.le_floor.mp hk2
    exact_mod_cast this

theorem window_len_le (d fps c b a : ℚ) :
    (mkWindow d fps c b a).end_sec - (mkWindow d fps c b a).start_sec ≤ a + b := by
  show min d (c + a) - max 0 (c - b) ≤ a + b
  have h1 : min d (c + a) ≤ c + a := min_le_right d (c + a)
  have h2 : c - b ≤ max 0 (c - b) := le_max_right 0 (c - b)
  linarith

theorem save_idxs_pad_inter (d fps c b a : ℚ) (hf : 0 ≤ fps) :
    save_idxs_pad (mkWindow d fps c b a).start_sec b a fps
        ∩ Finset.Ico (mkWindow d fps c b a).start_f (mkWindow d fps c b a).end_f
      = specSampleSet (mkWindow d fps c b a).start_sec (mkWindow d fps c b a).end_sec fps
        ∩ Finset.Ico (mkWindow d fps c b a).start_f (mkWindow d fps c b a).end_f := by
  apply save_inter_eq _ _ _ hf
  intro k hk
  have hlen := window_len_le d fps c b a
  have hab : (k : ℚ) ≤ a + b := le_trans hk hlen
  have : (k : ℤ) ≤ Int.floor (a + b) := Int.le_floor.mpr (by exact_mod_cast hab)
  have hab0 : (0 : ℚ) ≤ a + b := le_trans (by positivity) hab
  unfold pyInt
  rw [if_pos hab0]
  omega

theorem save_idxs_len_inter (d fps c b a : ℚ) (hf : 0 ≤ fps) :
    save_idxs_len (mkWindow d fps c b a).start_sec (mkWindow d fps c b a).end_sec fps
        ∩ Finset.Ico (mkWindow d fps c b a).start_f (mkWindow d fps c b a).end_f
      = specSampleSet (mkWindow d fps c b a).start_sec (mkWindow d fps c b a).end_sec fps
        ∩ Finset.Ico (mkWindow d fps c b a).start_f (mkWindow d fps c b a).end_f := by
  apply save_inter_eq _ _ _ hf
  intro k hk
  have h1 : (k : ℤ) ≤ Int.floor ((mkWindow d fps c b a).end_sec
      - (mkWindow d fps c b a).start_sec) := Int.le_floor.mpr (by exact_mod_cast hk)
  have h2 := floor_le_pyRound ((mkWindow d fps c b a).end_sec
      - (mkWindow d fps c b a).start_sec)
  omega

/-- The persisted index set of a completed extraction with no read failure is
exactly the sampled set clipped to the frame range of the window. -/
theorem extractRun_true_snd (save : Finset ℤ) (s e : ℤ) :
    (extractRun (fun _ => true) save s e).2 = save ∩ Finset.Ico s e := by
  unfold extractRun
  rw [extractLoop_true_snd save ((e - s).toNat) s 0]
  by_cases h : s ≤ e
  · rw [show s + ((e - s).toNat : ℤ) = e from by omega]
  · have h1 : Finset.Ico s (s + ((e - s).toNat : ℤ)) = ∅ := by
      rw [show ((e - s).toNat : ℤ) = 0 from by omega]
      simp
    have h2 : Finset.Ico s e = ∅ := Finset.Ico_eq_empty (by omega)
    rw [h1, h2]

/-! ### Character class lemmas -/

theorem char_le_iff_toNat {a b : Char} : a ≤ b ↔ a.toNat ≤ b.toNat := Iff.rfl

theorem isAllowedC_iff (c : Char) : isAllowedC c = true ↔
    (97 ≤ c.toNat ∧ c.toNat ≤ 122) ∨ (48 ≤ c.toNat ∧ c.toNat ≤ 57)
      ∨ c = '_' ∨ c = '-' := by
  unfold isAllowedC
  simp only [Bool.or_eq_true, Bool.and_eq_true, decide_eq_true_eq, beq_iff_eq]
  rw [show (('a' ≤ c) = (97 ≤ c.toNat)) from propext char_le_iff_toNat,
    show ((c ≤ 'z') = (c.toNat ≤ 122)) from propext char_le_iff_toNat,
    show (('0' ≤ c) = (48 ≤ c.toNat)) from propext char_le_iff_toNat,
    show ((c ≤ '9') = (c.toNat ≤ 57)) from propext char_le_iff_toNat]
  tauto

theorem isDigitC_iff (c : Char) : isDigitC c = true ↔
    48 ≤ c.toNat ∧ c.toNat ≤ 57 := by
  unfold isDigitC
  simp only [Bool.and_eq_true, decide_eq_true_eq]
  rw [show (('0' ≤ c) = (48 ≤ c.toNat)) from propext char_le_iff_toNat,
    show ((c ≤ '9') = (c.toNat ≤ 57)) from propext char_le_iff_toNat]

theorem isSpaceC_false_of_toNat {c : Char}
    (h : c.toNat ≠ 32 ∧ c.toNat ≠ 9 ∧ c.toNat ≠ 10 ∧ c.toNat ≠ 13
      ∧ c.toNat ≠ 11 ∧ c.toNat ≠ 12) : isSpaceC c = false := by
  simp only [isSpaceC, Bool.or_eq_false_iff, beq_eq_false_iff_ne, ne_eq]
  obtain ⟨h1, h2, h3, h4, h5, h6⟩ := h
  refine ⟨⟨⟨⟨⟨?_, ?_⟩, ?_⟩, ?_⟩, ?_⟩, ?_⟩ <;> (intro heq; subst heq)
  · exact h1 (by decide)
  · exact h2 (by decide)
  · exact h3 (by decide)
  · exact h4 (by decide)
  · exact h5 (by decide)
  · exact h6 (by decide)

theorem isSpaceC_false_of_allowed {c : Char} (h : isAllowedC c = true) :
    isSpaceC c = false := by
  rw [isAllowedC_iff] at h
  apply isSpaceC_false_of_toNat
  rcases h with ⟨h1, h2⟩ | ⟨h1, h2⟩ | rfl | rfl
  · omega
  · omega
  · refine ⟨?_, ?_, ?_, ?_, ?_, ?_⟩ <;> decide
  · refine ⟨?_, ?_, ?_, ?_, ?_, ?_⟩ <;> decide

theorem isSpaceC_false_of_digit {c : Char} (h : isDigitC c = true) :
    isSpaceC c = false := by
  rw [isDigitC_iff] at h
  apply isSpaceC_false_of_toNat
  omega

theorem toLowerPy_eq_of_allowed {c : Char} (h : isAllowedC c = true) :
    toLowerPy c = c := by
  rw [isAllowedC_iff] at h
  unfold toLowerPy
  rw [if_neg]
  intro hc
  obtain ⟨hu1, hu2⟩ := hc
  rw [char_le_iff_toNat] at hu1 hu2
  have e1 : ('A' : Char).toNat = 65 := by decide
  have e2 : ('Z' : Char).toNat = 90 := by decide
  rw [e1] at hu1
  rw [e2] at hu2
  rcases h with ⟨h1, h2⟩ | ⟨h1, h2⟩ | rfl | rfl
  · omega
  · omega
  · have : ('_' : Char).toNat = 95 := by decide
    omega
  · have : ('-' : Char).toNat = 45 := by decide
    omega

theorem ne_amp_of_allowed {c : Char} (h : isAllowedC c = true) : c ≠ '&' := by
  rw [isAllowedC_iff] at h
  intro heq
  subst heq
  rcases h with ⟨h1, h2⟩ | ⟨h1, h2⟩ | h | h
  · exact absurd h1 (by decide)
  · exact absurd h1 (by decide)
  · exact absurd h (by decide)
  · exact absurd h (by decide)

/-! ### Sanitizer pipeline fixpoints on allowed strings -/

theorem dropWhile_eq_self_of_false {p : Char → Bool} {l : List Char}
    (h : ∀ c ∈ l, p c = false) : l.dropWhile p = l := by
  cases l with
  | nil => rfl
  | cons c cs =>
      rw [List.dropWhile_cons, if_neg]
      rw [h c (List.mem_cons_self c cs)]
      exact Bool.false_ne_true

theorem stripChars_eq_self_of_nospace {l : List Char}
    (h : ∀ c ∈ l, isSpaceC c = false) : stripChars l = l := by
  unfold stripChars
  rw [dropWhile_eq_self_of_false h]
  rw [dropWhile_eq_self_of_false (fun c hc => h c (List.mem_reverse.mp hc))]
  exact List.reverse_reverse l

theorem map_toLowerPy_eq_self {l : List Char}
    (h : ∀ c ∈ l, isAllowedC c = true) : l.map toLowerPy = l := by
  induction l with
  | nil => rfl
  | cons c cs ih =>
      rw [List.map_cons, toLowerPy_eq_of_allowed (h c (List.mem_cons_self c cs)),
        ih (fun x hx => h x (List.mem_cons_of_mem c hx))]

theorem replaceAmp_eq_self {l : List Char}
    (h : ∀ c ∈ l, isAllowedC c = true) : replaceAmp l = l := by
  induction l with
  | nil => rfl
  | cons c cs ih =>
      unfold replaceAmp
      rw [List.flatMap_cons]
      rw [if_neg (ne_amp_of_allowed (h c (List.mem_cons_self c cs)))]
      show c :: replaceAmp cs = c :: cs
      rw [ih (fun x hx => h x (List.mem_cons_of_mem c hx))]

theorem squashAux_eq_self {l : List Char}
    (h : ∀ c ∈ l, isSpaceC c = false) : ∀ b, squashAux b l = l := by
  induction l with
  | nil => intro b; rfl
  | cons c cs ih =>
      intro b
      show (if isSpaceC c then _ else c :: squashAux false cs) = c :: cs
      rw [h c (List.mem_cons_self c cs)]
      simp only [Bool.false_eq_true, if_false]
      rw [ih (fun x hx => h x (List.mem_cons_of_mem c hx)) false]

theorem squashSpaces_eq_self {l : List Char}
    (h : ∀ c ∈ l, isSpaceC c = false) : squashSpaces l = l :=
  squashAux_eq_self h false

/-! ### Sanitizer output characterization -/

theorem unknown_chars_allowed :
    ∀ c ∈ ("unknown" : String).data, isAllowedC c = true := by decide

theorem sanitize_core_allowed (l : List Char) :
    ∀ c ∈ sanitize_core l, isAllowedC c = true := by
  intro c hc
  exact (List.mem_filter.mp hc).2

theorem sanitize_core_fixpoint {l : List Char}
    (hall : ∀ c ∈ l, isAllowedC c = true) : sanitize_core l = l := by
  unfold sanitize_core
  rw [stripChars_eq_self_of_nospace
    (fun c hc => isSpaceC_false_of_allowed (hall c hc))]
  rw [map_toLowerPy_eq_self hall]
  rw [replaceAmp_eq_self hall]
  rw [squashSpaces_eq_self (fun c hc => isSpaceC_false_of_allowed (hall c hc))]
  exact List.filter_eq_self.mpr hall

/-- Evaluation of sanitize_event_name once the defaulted input is known. -/
theorem sanitize_eval (os : Option String) (s0 : String)
    (h : (match os with
      | none => "unknown"
      | some t => if t = "" then "unknown" else t) = s0) :
    sanitize_event_name os =
      (if (sanitize_core s0.data).isEmpty then "unknown"
        else String.mk (sanitize_core s0.data)) := by
  unfold sanitize_event_name
  rw [h]

theorem sanitize_ifbody_chars (s0 : String) :
    ∀ c ∈ (if (sanitize_core s0.data).isEmpty then "unknown"
      else String.mk (sanitize_core s0.data)).data, isAllowedC c = true := by
  by_cases he : (sanitize_core s0.data).isEmpty
  · rw [if_pos he]
    exact unknown_chars_allowed
  · rw [if_neg he]
    exact sanitize_core_allowed _

theorem sanitize_ifbody_ne_empty (s0 : String) :
    (if (sanitize_core s0.data).isEmpty then "unknown"
      else String.mk (sanitize_core s0.data)) ≠ "" := by
  by_cases he : (sanitize_core s0.data).isEmpty
  · rw [if_pos he]
    decide
  · rw [if_neg he]
    intro hcon
    have hd : sanitize_core s0.data = [] := congrArg String.data hcon
    rw [hd] at he
    exact he rfl

theorem sanitize_chars_allowed (os : Option String) :
    ∀ c ∈ (sanitize_event_name os).data, isAllowedC c = true := by
  rw [sanitize_eval os _ rfl]
  exact sanitize_ifbody_chars _

theorem sanitize_ne_empty (os : Option String) : sanitize_event_name os ≠ "" := by
  rw [sanitize_eval os _ rfl]
  exact sanitize_ifbody_ne_empty _

theorem sanitize_fixpoint {r : String} (hne : r ≠ "")
    (hall : ∀ c ∈ r.data, isAllowedC c = true) :
    sanitize_event_name (some r) = r := by
  rw [sanitize_eval (some r) r (if_neg hne)]
  rw [sanitize_core_fixpoint hall]
  rw [if_neg (fun he => hne (congrArg String.mk (List.isEmpty_iff.mp he)))]

/-! ### Parser round-trip lemmas -/

theorem takeWhile_append_all {p : Char → Bool} :
    ∀ (l r : List Char), (∀ c ∈ l, p c = true) →
      (l ++ r).takeWhile p = l ++ r.takeWhile p := by
  intro l
  induction l with
  | nil => intro r _; rfl
  | cons c cs ih =>
      intro r h
      rw [List.cons_append]
      rw [List.takeWhile_cons_of_pos (h c (List.mem_cons_self c cs))]
      rw [ih r (fun x hx => h x (List.mem_cons_of_mem c hx))]
      rfl

theorem dropWhile_append_all {p : Char → Bool} :
    ∀ (l r : List Char), (∀ c ∈ l, p c = true) →
      (l ++ r).dropWhile p = r.dropWhile p := by
  intro l
  induction l with
  | nil => intro r _; rfl
  | cons c cs ih =>
      intro r h
      rw [List.cons_append]
      rw [List.dropWhile_cons_of_pos (h c (List.mem_cons_self c cs))]
      exact ih r (fun x hx => h x (List.mem_cons_of_mem c hx))

theorem takeWhile_nondigit {r : List Char} {c : Char} (h : isDigitC c = false) :
    (c :: r).takeWhile isDigitC = [] :=
  List.takeWhile_cons_of_neg (by rw [h]; exact Bool.false_ne_true)

theorem dropWhile_nondigit {r : List Char} {c : Char} (h : isDigitC c = false) :
    (c :: r).dropWhile isDigitC = c :: r :=
  List.dropWhile_cons_of_neg (by rw [h]; exact Bool.false_ne_true)

theorem matchTs_plus {l1 l2 : List Char} {c1 c2 : Char}
    (h1 : l1 ≠ []) (hd1 : ∀ c ∈ l1, isDigitC c = true)
    (h2 : l2 ≠ []) (hd2 : ∀ c ∈ l2, isDigitC c = true)
    (hc1 : isDigitC c1 = true) (hc2 : isDigitC c2 = true) :
    matchTs (l1 ++ '+' :: (l2 ++ ':' :: [c1, c2]))
      = some (decDigits l1, decDigits l2, dec2 c1 c2) := by
  unfold matchTs
  rw [takeWhile_append_all l1 _ hd1, dropWhile_append_all l1 _ hd1]
  rw [takeWhile_nondigit (show isDigitC '+' = false from rfl)]
  rw [dropWhile_nondigit (show isDigitC '+' = false from rfl)]
  rw [List.append_nil]
  rw [if_neg (fun he => h1 (List.isEmpty_iff.mp he))]
  show (if (((l2 ++ ':' :: [c1, c2]).takeWhile isDigitC).isEmpty) then none
    else _) = _
  rw [takeWhile_append_all l2 _ hd2, dropWhile_append_all l2 _ hd2]
  rw [takeWhile_nondigit (show isDigitC ':' = false from rfl)]
  rw [dropWhile_nondigit (show isDigitC ':' = false from rfl)]
  rw [List.append_nil]
  rw [if_neg (fun he => h2 (List.isEmpty_iff.mp he))]
  show (if isDigitC c1 && isDigitC c2 then some _ else none) = _
  rw [hc1, hc2]
  rfl

theorem matchTs_noplus {l1 : List Char} {c1 c2 : Char}
    (h1 : l1 ≠ []) (hd1 : ∀ c ∈ l1, isDigitC c = true)
    (hc1 : isDigitC c1 = true) (hc2 : isDigitC c2 = true) :
    matchTs (l1 ++ ':' :: [c1, c2]) = some (decDigits l1, 0, dec2 c1 c2) := by
  unfold matchTs
  rw [takeWhile_append_all l1 _ hd1, dropWhile_append_all l1 _ hd1]
  rw [takeWhile_nondigit (show isDigitC ':' = false from rfl)]
  rw [dropWhile_nondigit (show isDigitC ':' = false from rfl)]
  rw [List.append_nil]
  rw [if_neg (fun he => h1 (List.isEmpty_iff.mp he))]
  show (if isDigitC c1 && isDigitC c2 then some _ else none) = _
  rw [hc1, hc2]
  rfl

theorem mk_ne_empty {l : List Char} (h : l ≠ []) : String.mk l ≠ "" :=
  fun he => h (congrArg String.data he)

theorem isSpaceC_plus : isSpaceC '+' = false := rfl

theorem isSpaceC_colon : isSpaceC ':' = false := rfl

theorem nospace_ts_plus {l1 l2 : List Char} {c1 c2 : Char}
    (hd1 : ∀ c ∈ l1, isDigitC c = true) (hd2 : ∀ c ∈ l2, isDigitC c = true)
    (hc1 : isDigitC c1 = true) (hc2 : isDigitC c2 = true) :
    ∀ c ∈ l1 ++ '+' :: (l2 ++ ':' :: [c1, c2]), isSpaceC c = false := by
  intro c hc
  rcases List.mem_append.mp hc with hc | hc
  · exact isSpaceC_false_of_digit (hd1 c hc)
  · rcases List.mem_cons.mp hc with rfl | hc
    · rfl
    · rcases List.mem_append.mp hc with hc | hc
      · exact isSpaceC_false_of_digit (hd2 c hc)
      · rcases List.mem_cons.mp hc with rfl | hc
        · rfl
        · rcases List.mem_cons.mp hc with rfl | hc
          · exact isSpaceC_false_of_digit hc1
          · rcases List.mem_cons.mp hc with rfl | hc
            · exact isSpaceC_false_of_digit hc2
            · exact absurd hc (List.not_mem_nil c)

theorem nospace_ts_noplus {l1 : List Char} {c1 c2 : Char}
    (hd1 : ∀ c ∈ l1, isDigitC c = true)
    (hc1 : isDigitC c1 = true) (hc2 : isDigitC c2 = true) :
    ∀ c ∈ l1 ++ ':' :: [c1, c2], isSpaceC c = false := by
  intro c hc
  rcases List.mem_append.mp hc with hc | hc
  · exact isSpaceC_false_of_digit (hd1 c hc)
  · rcases List.mem_cons.mp hc with rfl | hc
    · rfl
    · rcases List.mem_cons.mp hc with rfl | hc
      · exact isSpaceC_false_of_digit hc1
      · rcases List.mem_cons.mp hc with rfl | hc
        · exact isSpaceC_false_of_digit hc2
        · exact absurd hc (List.not_mem_nil c)

theorem parse_valid_plus {l1 l2 : List Char} {c1 c2 : Char}
    (h1 : l1 ≠ []) (hd1 : ∀ c ∈ l1, isDigitC c = true)
    (h2 : l2 ≠ []) (hd2 : ∀ c ∈ l2, isDigitC c = true)
    (hc1 : isDigitC c1 = true) (hc2 : isDigitC c2 = true) :
    parse_time_stamp (String.mk (l1 ++ '+' :: (l2 ++ ':' :: [c1, c2])))
      = some (((decDigits l1 + decDigits l2) * 60 + dec2 c1 c2 : ℕ) : ℚ) := by
  unfold parse_time_stamp
  rw [if_neg (mk_ne_empty (fun he => h1 (List.append_eq_nil.mp he).1))]
  rw [show (String.mk (l1 ++ '+' :: (l2 ++ ':' :: [c1, c2]))).data
      = l1 ++ '+' :: (l2 ++ ':' :: [c1, c2]) from rfl]
  rw [stripChars_eq_self_of_nospace (nospace_ts_plus hd1 hd2 hc1 hc2)]
  rw [matchTs_plus h1 hd1 h2 hd2 hc1 hc2]

theorem parse_valid_noplus {l1 : List Char} {c1 c2 : Char}
    (h1 : l1 ≠ []) (hd1 : ∀ c ∈ l1, isDigitC c = true)
    (hc1 : isDigitC c1 = true) (hc2 : isDigitC c2 = true) :
    parse_time_stamp (String.mk (l1 ++ ':' :: [c1, c2]))
      = some ((decDigits l1 * 60 + dec2 c1 c2 : ℕ) : ℚ) := by
  unfold parse_time_stamp
  rw [if_neg (mk_ne_empty (fun he => h1 (List.append_eq_nil.mp he).1))]
  rw [show (String.mk (l1 ++ ':' :: [c1, c2])).data = l1 ++ ':' :: [c1, c2] from rfl]
  rw [stripChars_eq_self_of_nospace (nospace_ts_noplus hd1 hc1 hc2)]
  rw [matchTs_noplus h1 hd1 hc1 hc2]
  rfl

/-! ### Half and batch processing lemmas -/

theorem process_half_error {l : List String} {ts : String}
    (hmem : ts ∈ l) (hbad : parse_time_stamp ts = none) :
    ∃ e, process_half l = Except.error e := by
  suffices h : ∃ e, keyedList l = Except.error e by
    obtain ⟨e, he⟩ := h
    refine ⟨e, ?_⟩
    unfold process_half
    rw [he]
  induction l with
  | nil => cases hmem
  | cons t rest ih =>
      rcases List.mem_cons.mp hmem with rfl | hmem2
      · exact ⟨ts, by simp [keyedList, hbad]⟩
      · cases hpt : parse_time_stamp t with
        | none => exact ⟨t, by simp [keyedList, hpt]⟩
        | some v =>
            obtain ⟨e, he⟩ := ih hmem2
            exact ⟨e, by simp [keyedList, hpt, he]⟩

theorem run_batch_mem {folders : List MatchFolder} {m : MatchFolder}
    (hm : m ∈ folders) :
    (m.name, (process_match m).toOption) ∈ run_batch folders := by
  unfold run_batch
  exact List.mem_map_of_mem _
    ((List.perm_insertionSort (fun a b => a.name ≤ b.name) folders).mem_iff.mpr hm)

theorem process_match_no_half2 {m : MatchFolder} (h : m.mkv2 = []) :
    process_match m = Except.ok ([], []) := by
  unfold process_match
  by_cases h1 : m.jsonFiles.isEmpty
  · rw [if_pos h1]
  · rw [if_neg h1]
    by_cases h2 : m.mkv1.isEmpty
    · rw [if_pos h2]
    · rw [if_neg h2]
      rw [if_pos (show m.mkv2.isEmpty = true from by rw [h]; rfl)]

/-! ### Dedup lemmas -/

theorem dedup_label_aux_mem :
    ∀ (comments : List RawComment) (seen : List (ℤ × String × String))
      (c : RawComment), c ∈ comments → c.time_stamp ≠ "" →
      (c.half, c.time_stamp, c.comments_type) ∉ seen →
      (c.time_stamp, c.comments_type, c.half) ∈ dedup_label_aux seen comments := by
  intro comments
  induction comments with
  | nil => intro seen c hc; cases hc
  | cons d rest ih =>
      intro seen c hc hne hnotseen
      rcases List.mem_cons.mp hc with rfl | hc2
      · unfold dedup_label_aux
        rw [if_neg hne, if_neg hnotseen]
        exact List.mem_cons_self _ _
      · unfold dedup_label_aux
        by_cases hd : d.time_stamp = ""
        · rw [if_pos hd]
          exact ih seen c hc2 hne hnotseen
        · rw [if_neg hd]
          by_cases hs : (d.half, d.time_stamp, d.comments_type) ∈ seen
          · rw [if_pos hs]
            exact ih seen c hc2 hne hnotseen
          · rw [if_neg hs]
            by_cases hkey : (c.half, c.time_stamp, c.comments_type)
                = (d.half, d.time_stamp, d.comments_type)
            · apply List.mem_cons.mpr
              left
              simp only [Prod.mk.injEq] at hkey
              obtain ⟨e1, e2, e3⟩ := hkey
              rw [e1, e2, e3]
            · apply List.mem_cons.mpr
              right
              refine ih _ c hc2 hne ?_
              intro hmem
              rcases List.mem_cons.mp hmem with he | hmem2
              · exact hkey he
              · exact hnotseen hmem2

/-- No record with a nonempty timestamp is ever lost by the label dedup:
records differing in any of half, timestamp or category are all kept. -/
theorem dedup_label_mem {comments : List RawComment} {c : RawComment}
    (hc : c ∈ comments) (hne : c.time_stamp ≠ "") :
    (c.time_stamp, c.comments_type, c.half) ∈ dedup_label comments :=
  dedup_label_aux_mem comments [] c hc hne (List.not_mem_nil _)

theorem write_clip_skip {d fps c b a : ℚ} {tag : String} {sinkOk : Bool}
    {readOk : ℕ → Bool}
    (h : (mkWindow d fps c b a).end_f ≤ (mkWindow d fps c b a).start_f) :
    write_clip_and_frames d fps c b a tag sinkOk readOk
      = JobResult.skippedInvalid := by
  unfold write_clip_and_frames
  rw [if_pos h]

theorem write_clip_done {d fps c b a : ℚ} {tag : String} {readOk : ℕ → Bool}
    (h : ¬ (mkWindow d fps c b a).end_f ≤ (mkWindow d fps c b a).start_f) :
    write_clip_and_frames d fps c b a tag true readOk
      = JobResult.done
          (clip_file_name tag (mkWindow d fps c b a).start_sec
            (mkWindow d fps c b a).end_sec)
          (extractRun readOk
            (save_idxs_pad (mkWindow d fps c b a).start_sec b a fps)
            (mkWindow d fps c b a).start_f (mkWindow d fps c b a).end_f).1
          (extractRun readOk
            (save_idxs_pad (mkWindow d fps c b a).start_sec b a fps)
            (mkWindow d fps c b a).start_f (mkWindow d fps c b a).end_f).2 := by
  unfold write_clip_and_frames
  rw [if_neg h, if_pos rfl]

/-! ### Claims -/

/-- C1: the spec claims an event with a malformed timestamp is logged and
skipped while every other event of the half is still processed.  The code
instead evaluates the sort key parse_time_stamp on every timestamp before the
per-event loop with its try/except skip, so one malformed timestamp raises out
of the whole half: at the failing input the half produces an error and no
event is processed, while the same list without the malformed stamp is fully
processed.  The skip handler inside the loop is unreachable for malformed
stamps, showing the spec is the intent and the code a slip. -/
theorem C1_malformed_timestamp_aborts_half :
    process_half ["10:00", "abc", "20:00"] = Except.error "abc"
      ∧ process_half ["10:00", "20:00"] = Except.ok [600, 1200] :=
  ⟨rfl, rfl⟩

/-- C3 amended: in extract_clips_frames_label.py the dedup key is the full
triple (half, raw_timestamp, category): every record with a nonempty
timestamp survives as a value, so records sharing a timestamp but differing
in category are both kept, and the three-record example deduplicates to
exactly the 2 distinct events.  (In newExtractFrames.py the key is the raw
timestamp alone and the same example keeps only 1 — see the
counterexample.) -/
theorem C3_dedup_key_label (comments : List RawComment) (c : RawComment)
    (hc : c ∈ comments) (hne : c.time_stamp ≠ "") :
    (c.time_stamp, c.comments_type, c.half) ∈ dedup_label comments
    ∧ dedup_label [⟨"10:00", "goal", 1⟩, ⟨"10:00", "goal", 1⟩, ⟨"10:00", "card", 1⟩]
        = [("10:00", "goal", 1), ("10:00", "card", 1)]
    ∧ (dedup_label [⟨"10:00", "goal", 1⟩, ⟨"10:00", "goal", 1⟩,
        ⟨"10:00", "card", 1⟩]).length = 2 :=
  ⟨dedup_label_mem hc hne, by decide, by decide⟩

theorem C3_witness :
    (("10:00", "goal", (1 : ℤ)) ∈ dedup_label [⟨"10:00", "goal", 1⟩]
      ∧ dedup_label [⟨"10:00", "goal", 1⟩, ⟨"10:00", "goal", 1⟩, ⟨"10:00", "card", 1⟩]
          = [("10:00", "goal", 1), ("10:00", "card", 1)]
      ∧ (dedup_label [⟨"10:00", "goal", 1⟩, ⟨"10:00", "goal", 1⟩,
          ⟨"10:00", "card", 1⟩]).length = 2) :=
  C3_dedup_key_label [⟨"10:00", "goal", 1⟩] ⟨"10:00", "goal", 1⟩
    (by decide) (by decide)

/-- C3 counterexample: the deduplicator of newExtractFrames.py keys on the raw
timestamp alone, so the example input with two categories at one timestamp
keeps only 1 record, not 2: the card event is dropped. -/
theorem C3_counterexample_ts_only_dedup :
    dedup_ts [⟨"10:00", "goal", 1⟩, ⟨"10:00", "goal", 1⟩, ⟨"10:00", "card", 1⟩]
        = [("10:00", "goal")]
    ∧ (dedup_ts [⟨"10:00", "goal", 1⟩, ⟨"10:00", "goal", 1⟩,
        ⟨"10:00", "card", 1⟩]).length ≠ 2
    ∧ ("10:00", "card") ∉ dedup_ts [⟨"10:00", "goal", 1⟩, ⟨"10:00", "goal", 1⟩,
        ⟨"10:00", "card", 1⟩] := by
  refine ⟨by decide, by decide, by decide⟩

/-- C5: the window calculator clamps start_sec to max(0, event - before) and
end_sec to min(duration, event + after) and rounds both bounds to frames,
exactly as the spec words state; in particular for duration 100 and paddings
15, an event at 5 gives the window from 0 to 20 and an event at 98 ends
at 100. -/
theorem C5_window_calculator_values (e b a d fps : ℚ) :
    mkWindow d fps e b a = specWindow e b a d fps
    ∧ (mkWindow d fps e b a).start_sec = max 0 (e - b)
    ∧ (mkWindow d fps e b a).end_sec = min d (e + a)
    ∧ (mkWindow d fps e b a).start_f = pyRound (max 0 (e - b) * fps)
    ∧ (mkWindow d fps e b a).end_f = pyRound (min d (e + a) * fps)
    ∧ (mkWindow 100 fps 5 15 15).start_sec = 0
    ∧ (mkWindow 100 fps 5 15 15).end_sec = 20
    ∧ (mkWindow 100 fps 98 15 15).end_sec = 100 := by
  refine ⟨rfl, rfl, rfl, rfl, rfl, ?_, ?_, ?_⟩
  · show max (0 : ℚ) (5 - 15) = 0
    norm_num
  · show min (100 : ℚ) (5 + 15) = 20
    norm_num
  · show min (100 : ℚ) (98 + 15) = 100
    norm_num

/-- C9: for every valid timestamp string, built from any nonempty digit groups
for minutes and optional added minutes and exactly two digit characters for
seconds, the parser folds the stoppage annotation additively and returns
(minutes + added) * 60 + seconds; in particular parse of 45+2:10 is 2830. -/
theorem C9_parse_stoppage_additive (l1 l2 : List Char) (c1 c2 : Char)
    (h1 : l1 ≠ []) (hd1 : ∀ c ∈ l1, isDigitC c = true)
    (h2 : l2 ≠ []) (hd2 : ∀ c ∈ l2, isDigitC c = true)
    (hc1 : isDigitC c1 = true) (hc2 : isDigitC c2 = true) :
    parse_time_stamp (String.mk (l1 ++ '+' :: (l2 ++ ':' :: [c1, c2])))
      = some (((decDigits l1 + decDigits l2) * 60 + dec2 c1 c2 : ℕ) : ℚ)
    ∧ parse_time_stamp (String.mk (l1 ++ ':' :: [c1, c2]))
      = some ((decDigits l1 * 60 + dec2 c1 c2 : ℕ) : ℚ)
    ∧ parse_time_stamp "45+2:10" = some ((2830 : ℕ) : ℚ) :=
  ⟨parse_valid_plus h1 hd1 h2 hd2 hc1 hc2,
   parse_valid_noplus h1 hd1 hc1 hc2, by decide⟩

theorem C9_witness :
    (parse_time_stamp (String.mk (['4', '5'] ++ '+' :: (['2'] ++ ':' :: ['1', '0'])))
      = some (((decDigits ['4', '5'] + decDigits ['2']) * 60 + dec2 '1' '0' : ℕ) : ℚ)
    ∧ parse_time_stamp (String.mk (['4', '5'] ++ ':' :: ['1', '0']))
      = some ((decDigits ['4', '5'] * 60 + dec2 '1' '0' : ℕ) : ℚ)
    ∧ parse_time_stamp "45+2:10" = some ((2830 : ℕ) : ℚ)) :=
  C9_parse_stoppage_additive ['4', '5'] ['2'] '1' '0'
    (by decide) (by decide) (by decide) (by decide) (by decide) (by decide)

/-- C10: the category sanitizer is idempotent, never returns the empty string,
returns only characters in the class of lowercase letters, digits, underscore
and hyphen, and maps a missing input to the literal unknown. -/
theorem C10_sanitize_idempotent_charset (os : Option String) :
    sanitize_event_name (some (sanitize_event_name os)) = sanitize_event_name os
    ∧ sanitize_event_name os ≠ ""
    ∧ (∀ c ∈ (sanitize_event_name os).data, isAllowedC c = true)
    ∧ sanitize_event_name none = "unknown" :=
  ⟨sanitize_fixpoint (sanitize_ne_empty os) (sanitize_chars_allowed os),
   sanitize_ne_empty os, sanitize_chars_allowed os, by decide⟩

theorem C10_witness :
    (sanitize_event_name (some (sanitize_event_name (some "Goal & Shot  on target!")))
        = sanitize_event_name (some "Goal & Shot  on target!")
    ∧ sanitize_event_name (some "Goal & Shot  on target!") ≠ ""
    ∧ (∀ c ∈ (sanitize_event_name (some "Goal & Shot  on target!")).data,
        isAllowedC c = true)
    ∧ sanitize_event_name none = "unknown") :=
  C10_sanitize_idempotent_charset (some "Goal & Shot  on target!")

/-- C2 amended: for every job run with an open sink and no read failure, the
set of frame indices persisted as still images equals the SampleSet of the
spec formula intersected with the frame range of the window (the spec set
itself also contains round(end_sec * fps) = end_frame, which the loop never
reaches — see the counterexample); the same clipped equality holds for the
label-variant save set, and every persisted index lies in the frame range.
This holds for clamped windows as well. -/
theorem C2_persisted_equals_sampleset_clipped (d fps c b a : ℚ) (tag : String)
    (hf : 0 ≤ fps) :
    (write_clip_and_frames d fps c b a tag true (fun _ => true)).persistedIdxs
      = specSampleSet (mkWindow d fps c b a).start_sec
          (mkWindow d fps c b a).end_sec fps
        ∩ Finset.Ico (mkWindow d fps c b a).start_f (mkWindow d fps c b a).end_f
    ∧ save_idxs_len (mkWindow d fps c b a).start_sec
          (mkWindow d fps c b a).end_sec fps
        ∩ Finset.Ico (mkWindow d fps c b a).start_f (mkWindow d fps c b a).end_f
      = specSampleSet (mkWindow d fps c b a).start_sec
          (mkWindow d fps c b a).end_sec fps
        ∩ Finset.Ico (mkWindow d fps c b a).start_f (mkWindow d fps c b a).end_f
    ∧ ∀ x ∈ (write_clip_and_frames d fps c b a tag true
        (fun _ => true)).persistedIdxs,
        x ∈ Finset.Ico (mkWindow d fps c b a).start_f (mkWindow d fps c b a).end_f := by
  have hmain : (write_clip_and_frames d fps c b a tag true
      (fun _ => true)).persistedIdxs
      = specSampleSet (mkWindow d fps c b a).start_sec
          (mkWindow d fps c b a).end_sec fps
        ∩ Finset.Ico (mkWindow d fps c b a).start_f (mkWindow d fps c b a).end_f := by
    by_cases hskip : (mkWindow d fps c b a).end_f ≤ (mkWindow d fps c b a).start_f
    · rw [write_clip_skip hskip]
      show (∅ : Finset ℤ) = _
      rw [Finset.Ico_eq_empty (by omega), Finset.inter_empty]
    · rw [write_clip_done hskip]
      show (extractRun (fun _ => true)
          (save_idxs_pad (mkWindow d fps c b a).start_sec b a fps)
          (mkWindow d fps c b a).start_f (mkWindow d fps c b a).end_f).2 = _
      rw [extractRun_true_snd, save_idxs_pad_inter d fps c b a hf]
  refine ⟨hmain, save_idxs_len_inter d fps c b a hf, ?_⟩
  intro x hx
  rw [hmain] at hx
  exact (Finset.mem_inter.mp hx).2

theorem C2_witness :
    ((0 : ℚ) ≤ 1)
    ∧ ((write_clip_and_frames 100 1 15 2 2 "x" true (fun _ => true)).persistedIdxs
      = specSampleSet (mkWindow 100 1 15 2 2).start_sec
          (mkWindow 100 1 15 2 2).end_sec 1
        ∩ Finset.Ico (mkWindow 100 1 15 2 2).start_f (mkWindow 100 1 15 2 2).end_f
    ∧ save_idxs_len (mkWindow 100 1 15 2 2).start_sec
          (mkWindow 100 1 15 2 2).end_sec 1
        ∩ Finset.Ico (mkWindow 100 1 15 2 2).start_f (mkWindow 100 1 15 2 2).end_f
      = specSampleSet (mkWindow 100 1 15 2 2).start_sec
          (mkWindow 100 1 15 2 2).end_sec 1
        ∩ Finset.Ico (mkWindow 100 1 15 2 2).start_f (mkWindow 100 1 15 2 2).end_f
    ∧ ∀ x ∈ (write_clip_and_frames 100 1 15 2 2 "x" true
        (fun _ => true)).persistedIdxs,
        x ∈ Finset.Ico (mkWindow 100 1 15 2 2).start_f
          (mkWindow 100 1 15 2 2).end_f) :=
  ⟨by decide, C2_persisted_equals_sampleset_clipped 100 1 15 2 2 "x" (by decide)⟩

/-- C2 counterexample: at duration 100, fps 1, event 15, paddings 15, the
window is seconds 0 to 30 with frames 0 to 30; the claimed SampleSet formula
contains index 30 = end_frame, which does not lie in the frame range, and the
persisted set is not equal to the formula set. -/
theorem C2_counterexample_endframe :
    (mkWindow 100 1 15 15 15).start_sec = 0
    ∧ (mkWindow 100 1 15 15 15).end_sec = 30
    ∧ (mkWindow 100 1 15 15 15).start_f = 0
    ∧ (mkWindow 100 1 15 15 15).end_f = 30
    ∧ (30 : ℤ) ∈ specSampleSet (mkWindow 100 1 15 15 15).start_sec
        (mkWindow 100 1 15 15 15).end_sec 1
    ∧ (30 : ℤ) ∉ Finset.Ico (mkWindow 100 1 15 15 15).start_f
        (mkWindow 100 1 15 15 15).end_f
    ∧ (write_clip_and_frames 100 1 15 15 15 "t" true (fun _ => true)).persistedIdxs
        ≠ specSampleSet (mkWindow 100 1 15 15 15).start_sec
            (mkWindow 100 1 15 15 15).end_sec 1 := by
  have hs : (mkWindow 100 1 15 15 15).start_sec = 0 := by
    show max (0 : ℚ) (15 - 15) = 0
    norm_num
  have he : (mkWindow 100 1 15 15 15).end_sec = 30 := by
    show min (100 : ℚ) (15 + 15) = 30
    norm_num
  have hsf : (mkWindow 100 1 15 15 15).start_f = 0 := by
    show pyRound (max (0 : ℚ) (15 - 15) * 1) = 0
    exact pyRound_eq_int (by norm_num)
  have hef : (mkWindow 100 1 15 15 15).end_f = 30 := by
    show pyRound (min (100 : ℚ) (15 + 15) * 1) = 30
    exact pyRound_eq_int (by norm_num)
  have hmem : (30 : ℤ) ∈ specSampleSet (mkWindow 100 1 15 15 15).start_sec
      (mkWindow 100 1 15 15 15).end_sec 1 := by
    rw [hs, he]
    unfold specSampleSet
    simp only [Finset.mem_image, Finset.mem_range]
    refine ⟨30, ?_, ?_⟩
    · rw [show (30 : ℚ) - 0 = ((30 : ℤ) : ℚ) from by norm_num, Int.floor_intCast]
      decide
    · exact pyRound_eq_int (by push_cast; ring)
  have hnotmem : (30 : ℤ) ∉ Finset.Ico (mkWindow 100 1 15 15 15).start_f
      (mkWindow 100 1 15 15 15).end_f := by
    rw [hsf, hef]
    simp [Finset.mem_Ico]
  refine ⟨hs, he, hsf, hef, hmem, hnotmem, ?_⟩
  intro heq
  have hskip : ¬ (mkWindow 100 1 15 15 15).end_f ≤ (mkWindow 100 1 15 15 15).start_f := by
    rw [hsf, hef]
    decide
  have hP : (write_clip_and_frames 100 1 15 15 15 "t" true
      (fun _ => true)).persistedIdxs
      = specSampleSet (mkWindow 100 1 15 15 15).start_sec
          (mkWindow 100 1 15 15 15).end_sec 1
        ∩ Finset.Ico (mkWindow 100 1 15 15 15).start_f
          (mkWindow 100 1 15 15 15).end_f := by
    rw [write_clip_done hskip]
    show (extractRun (fun _ => true)
        (save_idxs_pad (mkWindow 100 1 15 15 15).start_sec 15 15 1)
        (mkWindow 100 1 15 15 15).start_f (mkWindow 100 1 15 15 15).end_f).2 = _
    rw [extractRun_true_snd, save_idxs_pad_inter 100 1 15 15 15 (by decide)]
  rw [hP] at heq
  have h30 := hmem
  rw [← heq] at h30
  exact hnotmem (Finset.mem_inter.mp h30).2

/-- C4: a match folder whose second half video is missing yields no extraction
work at all for either half, the batch entry for it records the empty outcome,
and every folder of the batch is still processed to its own outcome: the match
loop catches per-match exceptions (modelled by Except caught into Option), so
one bad match never aborts the batch. -/
theorem C4_missing_half2_skipped_batch_continues (folders : List MatchFolder)
    (m : MatchFolder) (hm : m ∈ folders) (h2 : m.mkv2 = []) :
    process_match m = Except.ok ([], [])
    ∧ (m.name, some (([] : List ℚ), ([] : List ℚ))) ∈ run_batch folders
    ∧ ∀ m2 ∈ folders, (m2.name, (process_match m2).toOption) ∈ run_batch folders := by
  have h1 := process_match_no_half2 h2
  refine ⟨h1, ?_, fun m2 hm2 => run_batch_mem hm2⟩
  have hmem := run_batch_mem hm
  rw [h1] at hmem
  exact hmem

theorem C4_witness :
    (process_match (MatchFolder.mk "a" ["m.json"] ["v_1.mkv"] [] (some []))
        = Except.ok ([], [])
    ∧ ("a", some (([] : List ℚ), ([] : List ℚ)))
        ∈ run_batch [MatchFolder.mk "a" ["m.json"] ["v_1.mkv"] [] (some []),
          MatchFolder.mk "b" ["m.json"] ["v_1.mkv"] ["v_2.mkv"]
            (some [⟨"10:00", "goal", 1⟩])]
    ∧ ∀ m2 ∈ [MatchFolder.mk "a" ["m.json"] ["v_1.mkv"] [] (some []),
          MatchFolder.mk "b" ["m.json"] ["v_1.mkv"] ["v_2.mkv"]
            (some [⟨"10:00", "goal", 1⟩])],
        (m2.name, (process_match m2).toOption)
          ∈ run_batch [MatchFolder.mk "a" ["m.json"] ["v_1.mkv"] [] (some []),
            MatchFolder.mk "b" ["m.json"] ["v_1.mkv"] ["v_2.mkv"]
              (some [⟨"10:00", "goal", 1⟩])]) :=
  C4_missing_half2_skipped_batch_continues _ _ (by decide) rfl

/-- C6 amended: the window invariants 0 ≤ start_sec ≤ end_sec ≤ duration hold
for nonnegative event time, paddings and duration whenever the event lies no
more than before_sec past the end of the video (without that bound start_sec
can exceed end_sec — see the counterexample); independently, any window whose
end frame is at most its start frame makes the job a silent skip. -/
theorem C6_window_invariants_amended (e b a d fps : ℚ)
    (he : 0 ≤ e) (hb : 0 ≤ b) (ha : 0 ≤ a) (hd : 0 ≤ d) (hbound : e ≤ d + b) :
    0 ≤ (mkWindow d fps e b a).start_sec
    ∧ (mkWindow d fps e b a).start_sec ≤ (mkWindow d fps e b a).end_sec
    ∧ (mkWindow d fps e b a).end_sec ≤ d
    ∧ (∀ tag sinkOk readOk,
        (mkWindow d fps e b a).end_f ≤ (mkWindow d fps e b a).start_f →
        write_clip_and_frames d fps e b a tag sinkOk readOk
          = JobResult.skippedInvalid) := by
  refine ⟨le_max_left 0 _, ?_, min_le_left d _,
    fun tag sinkOk readOk h => write_clip_skip h⟩
  show max 0 (e - b) ≤ min d (e + a)
  apply max_le
  · exact le_min hd (by linarith)
  · exact le_min (by linarith) (by linarith)

theorem C6_witness :
    ((0 : ℚ) ≤ 5 ∧ (0 : ℚ) ≤ 15 ∧ (0 : ℚ) ≤ 100 ∧ (5 : ℚ) ≤ 100 + 15)
    ∧ (0 ≤ (mkWindow 100 1 5 15 15).start_sec
    ∧ (mkWindow 100 1 5 15 15).start_sec ≤ (mkWindow 100 1 5 15 15).end_sec
    ∧ (mkWindow 100 1 5 15 15).end_sec ≤ 100
    ∧ (∀ tag sinkOk readOk,
        (mkWindow 100 1 5 15 15).end_f ≤ (mkWindow 100 1 5 15 15).start_f →
        write_clip_and_frames 100 1 5 15 15 tag sinkOk readOk
          = JobResult.skippedInvalid)) :=
  ⟨⟨by norm_num, by norm_num, by norm_num, by norm_num⟩,
   C6_window_invariants_amended 5 15 15 100 1 (by norm_num) (by norm_num)
     (by norm_num) (by norm_num) (by norm_num)⟩

/-- C6 counterexample: an event at second 200 of a 100 second video with
paddings 15 lies in the domain claimed by the invariant (all inputs
nonnegative, fps positive) yet yields start_sec 185 greater than end_sec 100;
the code then skips the job silently. -/
theorem C6_counterexample_event_past_end :
    (0 : ℚ) ≤ 200 ∧ (0 : ℚ) ≤ 15 ∧ (0 : ℚ) ≤ 100 ∧ (0 : ℚ) < 1
    ∧ ¬ ((mkWindow 100 1 200 15 15).start_sec ≤ (mkWindow 100 1 200 15 15).end_sec)
    ∧ (mkWindow 100 1 200 15 15).end_f ≤ (mkWindow 100 1 200 15 15).start_f
    ∧ write_clip_and_frames 100 1 200 15 15 "t" true (fun _ => true)
        = JobResult.skippedInvalid := by
  have hs : (mkWindow 100 1 200 15 15).start_sec = 185 := by
    show max (0 : ℚ) (200 - 15) = 185
    norm_num
  have he2 : (mkWindow 100 1 200 15 15).end_sec = 100 := by
    show min (100 : ℚ) (200 + 15) = 100
    norm_num
  have hsf : (mkWindow 100 1 200 15 15).start_f = 185 := by
    show pyRound (max (0 : ℚ) (200 - 15) * 1) = 185
    exact pyRound_eq_int (by norm_num)
  have hef : (mkWindow 100 1 200 15 15).end_f = 100 := by
    show pyRound (min (100 : ℚ) (200 + 15) * 1) = 100
    exact pyRound_eq_int (by norm_num)
  refine ⟨by norm_num, by norm_num, by norm_num, by norm_num, ?_, ?_, ?_⟩
  · rw [hs, he2]
    norm_num
  · rw [hsf, hef]
    decide
  · exact write_clip_skip (by rw [hsf, hef]; decide)

/-- C7 amended: clip filenames embed the clamped start and end seconds at
millisecond precision and embed the tag; two jobs in one run have distinct
clip filenames exactly when their events parse to distinct whole seconds.
When two distinct raw timestamps parse to the same seconds the tags coincide,
the windows coincide, and the filenames collide — see the counterexample. -/
theorem C7_distinct_seconds_distinct_clip_names (n1 n2 : ℕ) (s1 e1 s2 e2 : ℚ)
    (hne : n1 ≠ n2) :
    clip_file_name (tag_of_sec ((n1 : ℕ) : ℚ)) s1 e1
      ≠ clip_file_name (tag_of_sec ((n2 : ℕ) : ℚ)) s2 e2 := by
  intro heq
  exact hne (tag_of_sec_nat_inj
    (clip_name_of_tag_inj heq (tag_data_no_underscore n1) (tag_data_no_underscore n2)))

theorem C7_witness :
    ((0 : ℕ) ≠ 1)
    ∧ clip_file_name (tag_of_sec ((0 : ℕ) : ℚ)) 0 20
      ≠ clip_file_name (tag_of_sec ((1 : ℕ) : ℚ)) 0 20 :=
  ⟨by decide, C7_distinct_seconds_distinct_clip_names 0 1 0 20 0 20 (by decide)⟩

/-- C7 counterexample: the two distinct raw timestamps 45+2:10 and 47:10 both
parse to 2830 seconds, so their tags coincide and their windows coincide, and
the two jobs produce identical clip filenames: the claim that filenames never
collide when tags coincide is false. -/
theorem C7_counterexample_tag_collision :
    ("45+2:10" : String) ≠ "47:10"
    ∧ parse_time_stamp "45+2:10" = some ((2830 : ℕ) : ℚ)
    ∧ parse_time_stamp "47:10" = some ((2830 : ℕ) : ℚ)
    ∧ norm_ts_for_filename "45+2:10" = norm_ts_for_filename "47:10"
    ∧ norm_ts_for_filename "45+2:10" = some "47-10.000"
    ∧ (mkWindow 5400 25 ((2830 : ℕ) : ℚ) 15 15).start_sec = ((2815 : ℕ) : ℚ)
    ∧ (mkWindow 5400 25 ((2830 : ℕ) : ℚ) 15 15).end_sec = ((2845 : ℕ) : ℚ)
    ∧ (norm_ts_for_filename "45+2:10").map
        (fun tg => clip_file_name tg ((2815 : ℕ) : ℚ) ((2845 : ℕ) : ℚ))
      = (norm_ts_for_filename "47:10").map
        (fun tg => clip_file_name tg ((2815 : ℕ) : ℚ) ((2845 : ℕ) : ℚ)) := by
  have hp1 : parse_time_stamp "45+2:10" = some ((2830 : ℕ) : ℚ) := by decide
  have hp2 : parse_time_stamp "47:10" = some ((2830 : ℕ) : ℚ) := by decide
  have hn1 : norm_ts_for_filename "45+2:10" = some (tag_of_sec ((2830 : ℕ) : ℚ)) := by
    unfold norm_ts_for_filename
    rw [hp1]
    rfl
  have hn2 : norm_ts_for_filename "47:10" = some (tag_of_sec ((2830 : ℕ) : ℚ)) := by
    unfold norm_ts_for_filename
    rw [hp2]
    rfl
  refine ⟨by decide, hp1, hp2, by rw [hn1, hn2], ?_, ?_, ?_, by rw [hn1, hn2]⟩
  · rw [hn1, tag_of_sec_nat]
    decide
  · show max (0 : ℚ) (((2830 : ℕ) : ℚ) - 15) = ((2815 : ℕ) : ℚ)
    push_cast
    norm_num
  · show min (5400 : ℚ) (((2830 : ℕ) : ℚ) + 15) = ((2845 : ℕ) : ℚ)
    push_cast
    norm_num

/-- C8: whenever a job completes with a recorded frame count (JobResult.done),
that count never exceeds end_frame - start_frame; and when the first read
failure happens at sequential position j before the end of the range, the
loop stops there and the job reports exactly j frames written. -/
theorem C8_wrote_bounded_and_truncated (d fps c b a : ℚ) (tag : String)
    (sinkOk : Bool) (readOk : ℕ → Bool) (nm : String) (wrote : ℕ) (ps : Finset ℤ)
    (h : write_clip_and_frames d fps c b a tag sinkOk readOk
        = JobResult.done nm wrote ps) :
    (wrote : ℤ) ≤ (mkWindow d fps c b a).end_f - (mkWindow d fps c b a).start_f
    ∧ ∀ j : ℕ,
        j < ((mkWindow d fps c b a).end_f - (mkWindow d fps c b a).start_f).toNat →
        readOk j = false → (∀ i : ℕ, i < j → readOk i = true) → wrote = j := by
  unfold write_clip_and_frames at h
  by_cases hskip : (mkWindow d fps c b a).end_f ≤ (mkWindow d fps c b a).start_f
  · rw [if_pos hskip] at h
    exact absurd h (by simp)
  · rw [if_neg hskip] at h
    cases sinkOk with
    | false => simp at h
    | true =>
        rw [if_pos rfl] at h
        injection h with hnm hw hp
        constructor
        · have hle : (extractRun readOk
              (save_idxs_pad (mkWindow d fps c b a).start_sec b a fps)
              (mkWindow d fps c b a).start_f (mkWindow d fps c b a).end_f).1
              ≤ ((mkWindow d fps c b a).end_f - (mkWindow d fps c b a).start_f).toNat :=
            extractLoop_fst_le readOk _ _ _ 0
          rw [← hw]
          omega
        · intro j hj hf hprev
          rw [← hw]
          exact extractLoop_stop readOk _ _ _ 0 j hj
            (by rw [Nat.zero_add]; exact hf)
            (fun i hi => by rw [Nat.zero_add]; exact hprev i hi)

theorem C8_witness :
    ((extractRun (fun k => decide (k ≠ 2))
        (save_idxs_pad (mkWindow 100 1 15 2 2).start_sec 2 2 1)
        (mkWindow 100 1 15 2 2).start_f (mkWindow 100 1 15 2 2).end_f).1 : ℤ)
      ≤ (mkWindow 100 1 15 2 2).end_f - (mkWindow 100 1 15 2 2).start_f :=
  (C8_wrote_bounded_and_truncated 100 1 15 2 2 "t" true (fun k => decide (k ≠ 2))
    _ _ _ (write_clip_done (by
      rw [show (mkWindow 100 1 15 2 2).end_f = 17 from pyRound_eq_int (by norm_num),
        show (mkWindow 100 1 15 2 2).start_f = 13 from pyRound_eq_int (by norm_num)]
      decide))).1

end SoccerExtract
